import Mathlib

/-!
Shallow embedding of the DataGen agent backend (`src/backend/server.py`).

The embedding models:
  * Python values that flow through the tool layer (`PyVal`), with the
    `str(...)` coercion (`pyStr`) used by the conversation loop;
  * the JSON file codec (`write_json`, `read_json`), with the Python
    `json` standard library abstracted as a `JsonCodec` record (its
    `dumps`/`loads` are external library functions, not repository code)
    and the filesystem as a map from path to `FileRead` outcome;
  * the slugification helper `_slugify` (over `List Char`, with Python's
    `str.strip`/`str.lower` restricted to ASCII, which is all the slug
    regex `[^a-z0-9]+` distinguishes);
  * the data generator `generate_sample_user`, with `random.randint`
    modelled by a draw stream `g : Nat → Nat` reduced into the requested
    inclusive range, and `datetime` arithmetic reduced to day counts;
  * the tool-calling loop `run_chat`, parameterised over the model
    invocation (an external network call) and the tool registry.
-/

/-- Python values that appear as tool arguments and results. -/
inductive PyVal where
  | str (s : String)
  | int (n : Int)
  | bool (b : Bool)
  | none
  | list (xs : List PyVal)
  | dict (xs : List (String × PyVal))

mutual

/-- Python `repr` on the modelled value fragment (string escaping inside
`repr` of a `str` is abstracted to quoting). -/
def pyRepr : PyVal → String
  | PyVal.str s => "'" ++ s ++ "'"
  | PyVal.int n => toString n
  | PyVal.bool b => if b then "True" else "False"
  | PyVal.none => "None"
  | PyVal.list xs => "[" ++ pyReprItems xs ++ "]"
  | PyVal.dict xs => "\x7b" ++ pyReprPairs xs ++ "\x7d"

/-- Comma-separated `repr` of list items. -/
def pyReprItems : List PyVal → String
  | [] => ""
  | [x] => pyRepr x
  | x :: y :: xs => pyRepr x ++ ", " ++ pyReprItems (y :: xs)

/-- Comma-separated `repr` of dict entries. -/
def pyReprPairs : List (String × PyVal) → String
  | [] => ""
  | [(k, v)] => "'" ++ k ++ "': " ++ pyRepr v
  | (k, v) :: y :: xs => "'" ++ k ++ "': " ++ pyRepr v ++ ", " ++ pyReprPairs (y :: xs)

end

/-- Python `str(...)`: the identity on strings, `repr` otherwise. -/
def pyStr : PyVal → String
  | PyVal.str s => s
  | v => pyRepr v

/-- Whether a Python value is a `str`. -/
def PyVal.isStr : PyVal → Bool
  | PyVal.str _ => true
  | _ => false

/-- Whether a Python value is a `dict`. -/
def PyVal.isDict : PyVal → Bool
  | PyVal.dict _ => true
  | _ => false

/-- The outcome of `Path.read_text` on one path: missing file
(`FileNotFoundError`), some other I/O failure (`OSError` with message `e`),
or the file's text. -/
inductive FileRead where
  | notFound
  | ioError (e : String)
  | content (text : String)
deriving DecidableEq

/-- The filesystem as seen through `Path.read_text`. -/
def FileSys := String → FileRead

/-- The Python `json` standard library, abstracted: `dumps` is
`json.dumps(x, indent=2, ensure_ascii=False)`, `dumps0` is plain
`json.dumps(x)`, and `loads` is `json.loads` returning either the parsed
value or the `JSONDecodeError`'s message. These are external library
functions; the repository only wires them together. -/
structure JsonCodec where
  dumps : PyVal → String
  dumps0 : PyVal → String
  loads : String → Except String PyVal

/-- The `write_json` tool (`server.py` lines 40-50): serialize `data` with
`json.dumps(data, indent=2, ensure_ascii=False)` and write it to
`filepath`, returning the updated filesystem and the tool's reply string.
`wfail` models the possibility that the filesystem write raises (the
`except` branch); `mkdir(parents=True, exist_ok=True)` is a no-op in the
flat path-to-content filesystem model. `len(text)` counts characters, as
in Python. -/
def write_json (J : JsonCodec) (wfail : String → Option String) (fs : FileSys)
    (filepath : String) (data : PyVal) : FileSys × String :=
  let text := J.dumps data
  match wfail filepath with
  | Option.some e => (fs, "Error writing JSON: " ++ e)
  | Option.none =>
      (fun q => if q = filepath then FileRead.content text else fs q,
       "Successfully wrote JSON to '" ++ filepath ++ "' (" ++ toString text.length
         ++ " characters).")

/-- The `read_json` tool (`server.py` lines 52-64): read the file, parse it
with `json.loads`, and return it re-rendered with
`json.dumps(data, indent=2, ensure_ascii=False)`; the three `except`
branches map to the three `FileRead`/parse outcomes. -/
def read_json (J : JsonCodec) (fs : FileSys) (filepath : String) : String :=
  match fs filepath with
  | FileRead.notFound => "Error: File '" ++ filepath ++ "' not found."
  | FileRead.ioError e => "Error reading JSON: " ++ e
  | FileRead.content text =>
      match J.loads text with
      | Except.error e => "Error: Invalid JSON in file - " ++ e
      | Except.ok data => J.dumps data

/-- The character class of the slug regex `[a-z0-9]` (the complement of
`[^a-z0-9]`). -/
def isSlugChar (c : Char) : Bool :=
  ('a' ≤ c && c ≤ 'z') || ('0' ≤ c && c ≤ '9')

/-- ASCII lowercasing, the fragment of Python's `str.lower` that can
produce characters matched by `[a-z0-9]`. -/
def asciiLower (c : Char) : Char :=
  if 'A' ≤ c && c ≤ 'Z' then Char.ofNat (c.toNat + 32) else c

/-- Python's `str.strip()`: drop whitespace from both ends. -/
def pyStrip (l : List Char) : List Char :=
  ((l.dropWhile Char.isWhitespace).reverse.dropWhile Char.isWhitespace).reverse

/-- The substitution `_slug_re.sub(".", s)`: each maximal run of
non-`[a-z0-9]` characters becomes a single dot. -/
def collapseRuns : List Char → List Char
  | [] => []
  | c :: cs =>
    if isSlugChar c then c :: collapseRuns cs
    else '.' :: collapseRuns (cs.dropWhile (fun d => !(isSlugChar d)))
termination_by l => l.length
decreasing_by
  · simp only [List.length_cons]
    omega
  · have h := (List.dropWhile_sublist (fun d => !(isSlugChar d)) (l := cs)).length_le
    simp only [List.length_cons]
    omega

/-- Python's `str.strip(".")`: drop dots from both ends. -/
def stripDots (l : List Char) : List Char :=
  ((l.dropWhile (fun c => c == '.')).reverse.dropWhile (fun c => c == '.')).reverse

/-- The `_slugify` helper (`server.py` lines 28-31): strip, lowercase,
collapse non-alphanumeric runs to dots, strip dots, and fall back to
`"user"` when the result is empty (`s or "user"`). -/
def _slugify (s : String) : String :=
  let t : List Char := (pyStrip s.data).map asciiLower
  let u : List Char := stripDots (collapseRuns t)
  if u.isEmpty then "user" else String.mk u

/-- A generated user record (`server.py` lines 92-100). `registeredAt` is
the registration time as a signed day count relative to the abstract
current time `now` (the `datetime` arithmetic and ISO rendering are
external library calls). -/
structure SampleUser where
  id : Nat
  firstName : String
  lastName : String
  email : String
  username : String
  age : Int
  registeredAt : Int
deriving DecidableEq

/-- The two shapes `generate_sample_user` returns: the single-key
error dict, or the users/count dict. -/
inductive GenResult where
  | error (msg : String)
  | ok (users : List SampleUser) (count : Nat)
deriving DecidableEq

/-- Python `random.randint(lo, hi)` drawn from a stream `g` of raw draws
at position `k`, reduced into the inclusive range `[lo, hi]` (defined
whenever `lo ≤ hi`, the only way the source calls it). -/
def randintI (g : Nat → Nat) (k : Nat) (lo hi : Int) : Int :=
  lo + ((g k % (hi - lo + 1).toNat : Nat) : Int)

/-- Python's `domain.strip().lower()` on the ASCII fragment. -/
def lowerStrip (d : String) : String :=
  String.mk ((pyStrip d.data).map asciiLower)

/-- One iteration of the generation loop body (`server.py` lines 87-100)
at index `i`, with the three `random.randint` calls drawing positions
`3*i`, `3*i+1`, `3*i+2` of the stream in source order (username suffix,
age, registration offset). -/
def mkUser (g : Nat → Nat) (now : Int) (min_age max_age : Int) (i : Nat)
    (first last domain : String) : SampleUser :=
  let first_slug := _slugify first
  let last_slug := _slugify last
  { id := i + 1
    firstName := first
    lastName := last
    email := first_slug ++ "." ++ last_slug ++ "@" ++ lowerStrip domain
    username := first_slug ++ toString (randintI g (3 * i) 100 999)
    age := randintI g (3 * i + 1) min_age max_age
    registeredAt := now - randintI g (3 * i + 2) 1 365 }

/-- The `generate_sample_user` tool (`server.py` lines 66-101): validate
in source order, then build one record per first name, cycling last names
and domains by index modulo their lengths. `getD` with default `""` is
list indexing; every index used is in bounds. -/
def generate_sample_user (g : Nat → Nat) (now : Int)
    (first_names last_names domains : List String)
    (min_age max_age : Int) : GenResult :=
  if first_names = [] then GenResult.error "first_names list cannot be empty"
  else if last_names = [] then GenResult.error "last_names list cannot be empty"
  else if domains = [] then GenResult.error "domains list cannot be empty"
  else if min_age > max_age then
    GenResult.error ("min_age (" ++ toString min_age ++ ") cannot be greater than max_age ("
      ++ toString max_age ++ ")")
  else if min_age < 0 ∨ max_age < 0 then
    GenResult.error "ages must be non-negative"
  else
    let users := (List.range first_names.length).map (fun i =>
      mkUser g now min_age max_age i (first_names.getD i "")
        (last_names.getD (i % last_names.length) "")
        (domains.getD (i % domains.length) ""))
    GenResult.ok users users.length

/-- The dict a `SampleUser` denotes in Python (keys in source order). -/
def sampleUserToPy (u : SampleUser) : PyVal :=
  PyVal.dict [("id", PyVal.int (Int.ofNat u.id)), ("firstName", PyVal.str u.firstName),
    ("lastName", PyVal.str u.lastName), ("email", PyVal.str u.email),
    ("username", PyVal.str u.username), ("age", PyVal.int u.age),
    ("registeredAt", PyVal.int u.registeredAt)]

/-- The Python value `generate_sample_user` actually returns: a dict in
both the error and the success case. -/
def genResultToPy : GenResult → PyVal
  | GenResult.error m => PyVal.dict [("error", PyVal.str m)]
  | GenResult.ok users count =>
      PyVal.dict [("users", PyVal.list (users.map sampleUserToPy)),
        ("count", PyVal.int (Int.ofNat count))]

/-- The `save_users` tool (`server.py` lines 103-137): apply list defaults
(`if not arg`, so `[]` models both `None` and an empty list), generate,
and on success serialize the whole result dict and write it; `wfail`
models a write failure caught by the surrounding `except`. -/
def save_users (J : JsonCodec) (g : Nat → Nat) (now : Int)
    (wfail : String → Option String) (fs : FileSys) (filepath : String)
    (first_names last_names domains : List String)
    (min_age max_age : Int) : FileSys × String :=
  let fn := if first_names = [] then ["John", "Jane", "Mike"] else first_names
  let ln := if last_names = [] then ["Smith", "Jones", "Brown"] else last_names
  let dn := if domains = [] then ["example.com"] else domains
  match generate_sample_user g now fn ln dn min_age max_age with
  | GenResult.error e => (fs, "Error generating users: " ++ e)
  | GenResult.ok users count =>
      let text := J.dumps (genResultToPy (GenResult.ok users count))
      match wfail filepath with
      | Option.some e => (fs, "Error saving users: " ++ e)
      | Option.none =>
          (fun q => if q = filepath then FileRead.content text else fs q,
           "Saved " ++ toString count ++ " users to '" ++ filepath ++ "'.")

/-- A tool-call request carried by an AI message: name, argument mapping,
correlation id (`tc.get("name")`, `tc.get("args")`, `tc.get("id")`). -/
structure ToolCall where
  name : String
  args : PyVal
  id : String

/-- LangChain message kinds as used by `run_chat`: System, Human, AI
(content plus pending tool calls), Tool (content plus correlation id). -/
inductive Message where
  | system (content : String)
  | human (content : String)
  | ai (content : PyVal) (tool_calls : List ToolCall)
  | tool (content : String) (tool_call_id : String)

/-- The correlation id of a Tool message, if the message is one. -/
def Message.toolCallId : Message → Option String
  | Message.tool _ cid => Option.some cid
  | _ => Option.none

/-- The content of a Tool message, if the message is one. -/
def Message.toolContent : Message → Option String
  | Message.tool c _ => Option.some c
  | _ => Option.none

/-- Whether a message is a Tool message. -/
def Message.isToolMsg : Message → Bool
  | Message.tool _ _ => true
  | _ => false

/-- A registered tool as the loop sees it: arguments in, either a result
value or a raised exception's text out (`tool.invoke(args)` inside the
`try`). -/
def ToolFn := PyVal → Except String PyVal

/-- The model invocation boundary `llm_with_tools.invoke(messages)`: an
external call returning the AI reply's content and tool calls. -/
def ChatModel := List Message → PyVal × List ToolCall

/-- Tool dispatch for one tool call (`server.py` lines 174-188): unknown
names yield the unknown-tool error message; a raised exception is caught
into the running-tool error message; in every case the appended content
passes through `str(...)` (`pyStr`). -/
def execToolCall (registry : String → Option ToolFn) (tc : ToolCall) : Message :=
  match registry tc.name with
  | Option.none => Message.tool ("Error: unknown tool '" ++ tc.name ++ "'") tc.id
  | Option.some t =>
      match t tc.args with
      | Except.ok v => Message.tool (pyStr v) tc.id
      | Except.error e =>
          Message.tool (pyStr (PyVal.str ("Error running tool '" ++ tc.name ++ "': " ++ e))) tc.id

/-- The terminal conversion of an AI reply's content (`server.py` line
171): a string is returned as is, anything else goes through plain
`json.dumps`. -/
def contentToText (J : JsonCodec) : PyVal → String
  | PyVal.str s => s
  | v => J.dumps0 v

/-- The system prompt (`server.py` lines 142-148). -/
def SYSTEM_MESSAGE : String :=
  "You are DataGen, a helpful assistant that generates sample data for applications. "
    ++ "To generate users, you need: first_names (list), last_names (list), domains (list), min_age, max_age. "
    ++ "Fill these values yourself without asking if the user leaves them out. "
    ++ "When asked to save users, prefer the save_users tool. If no filepath is provided, default to 'users.json'. "
    ++ "If the user refers to 'those users' from a previous request, ask them to specify details again."

/-- The body of `run_chat`'s `for _ in range(8)` loop, with the remaining
iteration count explicit: invoke the model, append its reply, return its
content when it carries no tool calls, otherwise append one Tool message
per tool call in order and continue; falling out of the loop returns the
exhaustion message. -/
def runChatAux (J : JsonCodec) (model : ChatModel) (registry : String → Option ToolFn) :
    Nat → List Message → String
  | 0, _ => "Error: exceeded tool-calling loop limit."
  | Nat.succ fuel, messages =>
      let ai := model messages
      if ai.2.isEmpty then contentToText J ai.1
      else
        runChatAux J model registry fuel
          ((messages ++ [Message.ai ai.1 ai.2]) ++ ai.2.map (execToolCall registry))

/-- `run_chat` (`server.py` lines 155-190): build the initial state and run
at most 8 rounds. -/
def run_chat (J : JsonCodec) (model : ChatModel) (registry : String → Option ToolFn)
    (input_text : String) (history_msgs : List Message) : String :=
  runChatAux J model registry 8
    (Message.system SYSTEM_MESSAGE :: (history_msgs ++ [Message.human input_text]))

/-- The number of model invocations `runChatAux` performs from a given
state: one per executed round. -/
def runChatInvocations (model : ChatModel) (registry : String → Option ToolFn) :
    Nat → List Message → Nat
  | 0, _ => 0
  | Nat.succ fuel, messages =>
      let ai := model messages
      if ai.2.isEmpty then 1
      else
        1 + runChatInvocations model registry fuel
          ((messages ++ [Message.ai ai.1 ai.2]) ++ ai.2.map (execToolCall registry))

/-- Spec-side reading of the slugification contract: the maximal runs of
alphanumeric (`[a-z0-9]`) characters of a character list, in order. -/
def slugWords : List Char → List (List Char)
  | l =>
    match h : l.dropWhile (fun c => !(isSlugChar c)) with
    | [] => []
    | c :: cs =>
        ((c :: cs).takeWhile isSlugChar) :: slugWords ((c :: cs).dropWhile isSlugChar)
termination_by l => l.length
decreasing_by
  simp_wf
  show (List.dropWhile isSlugChar (c :: cs)).length < l.length
  have hsuf : (c :: cs).length ≤ l.length := by
    have hs := List.dropWhile_suffix (fun c => !(isSlugChar c)) (l := l)
    rw [h] at hs
    exact hs.sublist.length_le
  have hc : isSlugChar c = true := by
    have hhead := List.head?_dropWhile_not (fun c => !(isSlugChar c)) l
    rw [h] at hhead
    simpa using hhead
  have hle2 : (List.dropWhile isSlugChar (c :: cs)).length ≤ cs.length := by
    rw [List.dropWhile_cons, if_pos hc]
    exact (List.dropWhile_sublist isSlugChar (l := cs)).length_le
  simp only [List.length_cons] at hsuf
  omega

/-- Spec-side reading of the slugification contract: join words with a
single separator character between consecutive words. -/
def joinDots : List (List Char) → List Char
  | [] => []
  | [w] => w
  | w :: x :: ws => w ++ '.' :: joinDots (x :: ws)

/-- The slugification contract as the specification words it: lowercase
the string, collapse every maximal run of non-alphanumeric characters
into a single separator, trim leading and trailing separators (so the
alphanumeric words are joined by single separators), and fall back to the
literal placeholder `"user"` when the result would be empty. -/
def slugifyClaim (s : String) : String :=
  let w := slugWords (s.data.map asciiLower)
  if w.isEmpty then "user" else String.mk (joinDots w)

/-- Witness fixture: the zero draw stream. -/
def g0 : Nat → Nat := fun _ => 0

/-- Witness fixture: a sample generation result used as a concrete tool
return value. -/
def demoGen : GenResult :=
  generate_sample_user g0 0 ["John"] ["Smith"] ["example.com"] 18 65

/-- Witness fixture: a concrete JSON-serializable mapping. -/
def demoVal : PyVal :=
  PyVal.dict [("name", PyVal.str "Ada"), ("age", PyVal.int 36)]

/-- Witness fixture: a codec whose `loads` inverts `dumps` on `demoVal`,
enough to exercise the round-trip contract at one concrete input. -/
def demoJson : JsonCodec where
  dumps := pyRepr
  dumps0 := pyRepr
  loads := fun s =>
    if s = pyRepr demoVal then Except.ok demoVal
    else Except.error "Expecting value: line 1 column 1 (char 0)"

/-- Witness fixture: no write ever fails. -/
def noFail : String → Option String := fun _ => Option.none

/-- Witness fixture: the empty filesystem. -/
def emptyFS : FileSys := fun _ => FileRead.notFound

/-- Witness fixture: a registry with no tools. -/
def emptyRegistry : String → Option ToolFn := fun _ => Option.none

/-- Witness fixture: a model stub that answers every state with one tool
call and never a plain-text reply. -/
def alwaysToolModel : ChatModel :=
  fun _ => (PyVal.str "", [⟨ "write_json", PyVal.none, "call_1" ⟩])

/-- Witness fixture: a tool call addressed to `generate_sample_user`. -/
def tcW : ToolCall := ⟨ "generate_sample_user", PyVal.none, "call_0" ⟩

/-- Witness fixture: a registry whose only tool returns the structured
dict `generate_sample_user` produces (a non-string result). -/
def dictRegistry : String → Option ToolFn := fun n =>
  if n = "generate_sample_user" then
    Option.some (fun _ => Except.ok (genResultToPy demoGen))
  else Option.none

/-- Proof-support: the leading separator `collapseRuns` emits when the
input starts with a non-alphanumeric character. -/
def dotLead (l : List Char) : List Char :=
  match l.head? with
  | Option.none => []
  | Option.some c => if isSlugChar c then [] else ['.']

/-- Proof-support: the trailing separator `collapseRuns` emits when the
input ends with a non-alphanumeric character. -/
def dotTrail (l : List Char) : List Char :=
  match l.getLast? with
  | Option.none => []
  | Option.some c => if isSlugChar c then [] else ['.']

/-- The Python value `write_json` returns: its reply string. -/
def write_json_result (J : JsonCodec) (wfail : String → Option String)
    (fs : FileSys) (filepath : String) (data : PyVal) : PyVal :=
  PyVal.str (write_json J wfail fs filepath data).2

/-- The Python value `read_json` returns: its reply string. -/
def read_json_result (J : JsonCodec) (fs : FileSys) (filepath : String) : PyVal :=
  PyVal.str (read_json J fs filepath)

/-- The Python value `save_users` returns: its reply string. -/
def save_users_result (J : JsonCodec) (g : Nat → Nat) (now : Int)
    (wfail : String → Option String) (fs : FileSys) (filepath : String)
    (first_names last_names domains : List String)
    (min_age max_age : Int) : PyVal :=
  PyVal.str (save_users J g now wfail fs filepath first_names last_names domains
    min_age max_age).2

/-- The Python value `generate_sample_user` returns: a dict in both
shapes. -/
def generate_sample_user_result (g : Nat → Nat) (now : Int)
    (first_names last_names domains : List String)
    (min_age max_age : Int) : PyVal :=
  genResultToPy (generate_sample_user g now first_names last_names domains
    min_age max_age)

/-- Unequal strings have unequal character data at some index. -/
theorem str_ne_of_data_getElem (s t : String) (i : Nat)
    (h : s.data[i]? ≠ t.data[i]?) : s ≠ t :=
  fun he => h (by rw [he])

/-- Reading inside the left part of an appended character list. -/
theorem strPrefix_getElem (a : String) (rest : List Char) (i : Nat)
    (h : i < a.data.length) : (a.data ++ rest)[i]? = a.data[i]? :=
  List.getElem?_append_left h

/-- `random.randint` stays in the requested inclusive range whenever the
range is nonempty. -/
theorem randintI_mem (g : Nat → Nat) (k : Nat) (lo hi : Int) (h : lo ≤ hi) :
    lo ≤ randintI g k lo hi ∧ randintI g k lo hi ≤ hi := by
  unfold randintI
  have hpos : 0 < (hi - lo + 1).toNat := by omega
  have hlt : g k % (hi - lo + 1).toNat < (hi - lo + 1).toNat := Nat.mod_lt _ hpos
  omega

/-- C5 — For every valid input (all three lists non-empty and
`0 ≤ min_age ≤ max_age`), `generate_sample_user` returns the users/count
shape with `count` equal to the number of stored users and equal to
`len(first_names)`, and the record at index `i` has `id = i + 1`,
`firstName = first_names[i]`, `lastName = last_names[i % len(last_names)]`,
an email of the form `slug(first).slug(last)@domain` whose domain part is
the stripped-and-lowercased `domains[i % len(domains)]`, and an age in the
inclusive range `[min_age, max_age]`. -/
theorem claim_C5_generate_valid (g : Nat → Nat) (now : Int)
    (fn ln dn : List String) (min_age max_age : Int)
    (h1 : fn ≠ []) (h2 : ln ≠ []) (h3 : dn ≠ [])
    (h4 : 0 ≤ min_age) (h5 : min_age ≤ max_age) :
    ∃ users,
      generate_sample_user g now fn ln dn min_age max_age
        = GenResult.ok users users.length ∧
      users.length = fn.length ∧
      ∀ i (hi : i < users.length), ∃ first last dom,
        fn[i]? = some first ∧
        ln[i % ln.length]? = some last ∧
        dn[i % dn.length]? = some dom ∧
        (users.get ⟨i, hi⟩).id = i + 1 ∧
        (users.get ⟨i, hi⟩).firstName = first ∧
        (users.get ⟨i, hi⟩).lastName = last ∧
        (users.get ⟨i, hi⟩).email
          = _slugify first ++ "." ++ _slugify last ++ "@" ++ lowerStrip dom ∧
        min_age ≤ (users.get ⟨i, hi⟩).age ∧ (users.get ⟨i, hi⟩).age ≤ max_age := by
  refine ⟨(List.range fn.length).map (fun i =>
    mkUser g now min_age max_age i (fn.getD i "")
      (ln.getD (i % ln.length) "") (dn.getD (i % dn.length) "")), ?_, ?_, ?_⟩
  · unfold generate_sample_user
    rw [if_neg h1, if_neg h2, if_neg h3, if_neg (not_lt.mpr h5),
      if_neg (by omega : ¬(min_age < 0 ∨ max_age < 0))]
  · simp
  · intro i hi
    have hfn : i < fn.length := by simpa using hi
    have hln : i % ln.length < ln.length :=
      Nat.mod_lt _ (List.length_pos.mpr h2)
    have hdn : i % dn.length < dn.length :=
      Nat.mod_lt _ (List.length_pos.mpr h3)
    refine ⟨fn.getD i "", ln.getD (i % ln.length) "", dn.getD (i % dn.length) "", ?_, ?_, ?_, ?_⟩
    · rw [List.getElem?_eq_getElem hfn, List.getD_eq_getElem fn "" hfn]
    · rw [List.getElem?_eq_getElem hln, List.getD_eq_getElem ln "" hln]
    · rw [List.getElem?_eq_getElem hdn, List.getD_eq_getElem dn "" hdn]
    have hget : ((List.range fn.length).map (fun i =>
        mkUser g now min_age max_age i (fn.getD i "")
          (ln.getD (i % ln.length) "") (dn.getD (i % dn.length) ""))).get ⟨i, hi⟩
        = mkUser g now min_age max_age i (fn.getD i "")
            (ln.getD (i % ln.length) "") (dn.getD (i % dn.length) "") := by
      rw [List.get_eq_getElem]
      rw [List.getElem_map]
      congr 1 <;> rw [List.getElem_range]
    rw [hget]
    have hage := randintI_mem g (3 * i + 1) min_age max_age h5
    refine ⟨rfl, rfl, rfl, rfl, ?_, ?_⟩
    · simpa [mkUser] using hage.1
    · simpa [mkUser] using hage.2

/-- C5 witness: at a concrete valid input the generator returns two
records with the stated count. -/
theorem claim_C5_witness :
    ∃ users, generate_sample_user g0 0 ["John", "Jane"] ["Smith"] ["x.com"] 18 65
      = GenResult.ok users users.length ∧ users.length = 2 := by
  obtain ⟨users, e1, e2, _⟩ :=
    claim_C5_generate_valid g0 0 ["John", "Jane"] ["Smith"] ["x.com"] 18 65
      (by decide) (by decide) (by decide) (by decide) (by decide)
  exact ⟨users, e1, e2⟩

/-- C6 — `generate_sample_user` validates fail-fast in the fixed order
empty `first_names`, empty `last_names`, empty `domains`,
`min_age > max_age`, negative age; the first failing check alone
determines the single error result, whose message names the offending
parameter(s), and later checks are not reached (each clause holds for
arbitrary values of the later-checked arguments). -/
theorem claim_C6_validation_order (g : Nat → Nat) (now : Int)
    (fn ln dn : List String) (min_age max_age : Int) :
    (fn = [] →
      generate_sample_user g now fn ln dn min_age max_age
        = GenResult.error "first_names list cannot be empty" ∧
      "first_names list cannot be empty" = "first_names" ++ " list cannot be empty") ∧
    (fn ≠ [] → ln = [] →
      generate_sample_user g now fn ln dn min_age max_age
        = GenResult.error "last_names list cannot be empty" ∧
      "last_names list cannot be empty" = "last_names" ++ " list cannot be empty") ∧
    (fn ≠ [] → ln ≠ [] → dn = [] →
      generate_sample_user g now fn ln dn min_age max_age
        = GenResult.error "domains list cannot be empty" ∧
      "domains list cannot be empty" = "domains" ++ " list cannot be empty") ∧
    (fn ≠ [] → ln ≠ [] → dn ≠ [] → min_age > max_age →
      generate_sample_user g now fn ln dn min_age max_age
        = GenResult.error ("min_age (" ++ toString min_age
            ++ ") cannot be greater than max_age (" ++ toString max_age ++ ")")) ∧
    (fn ≠ [] → ln ≠ [] → dn ≠ [] → ¬(min_age > max_age) →
      min_age < 0 ∨ max_age < 0 →
      generate_sample_user g now fn ln dn min_age max_age
        = GenResult.error "ages must be non-negative") := by
  refine ⟨?_, ?_, ?_, ?_, ?_⟩
  · intro h1
    exact ⟨by unfold generate_sample_user; rw [if_pos h1], rfl⟩
  · intro h1 h2
    exact ⟨by unfold generate_sample_user; rw [if_neg h1, if_pos h2], rfl⟩
  · intro h1 h2 h3
    exact ⟨by unfold generate_sample_user; rw [if_neg h1, if_neg h2, if_pos h3], rfl⟩
  · intro h1 h2 h3 h4
    unfold generate_sample_user
    rw [if_neg h1, if_neg h2, if_neg h3, if_pos h4]
  · intro h1 h2 h3 h4 h5
    unfold generate_sample_user
    rw [if_neg h1, if_neg h2, if_neg h3, if_neg h4, if_pos h5]

/-- C6 witness: with every validation violated at once, the first check
(empty `first_names`) alone decides the error. -/
theorem claim_C6_witness :
    generate_sample_user g0 0 [] [] [] 5 3
      = GenResult.error "first_names list cannot be empty" :=
  ((claim_C6_validation_order g0 0 [] [] [] 5 3).1 rfl).1

/-- C4 counterexample — the claim says every registered tool's return
value is a string; but at a concrete valid input the value
`generate_sample_user` returns is not a string (it is a structured
dict). -/
theorem claim_C4_counterexample :
    (generate_sample_user_result g0 0 ["John"] ["Smith"] ["example.com"] 18 65).isStr
      = false := by
  unfold generate_sample_user_result
  cases h : generate_sample_user g0 0 ["John"] ["Smith"] ["example.com"] 18 65 <;>
    simp [genResultToPy, PyVal.isStr]

/-- C4 (amended) — `write_json`, `read_json` and `save_users` return
human-readable strings for every input, while `generate_sample_user`
returns a structured dict (either the error shape or the users/count
shape), never a string; the dict reaches the conversation only through
the loop's `str(...)` coercion. -/
theorem claim_C4_amended (J : JsonCodec) (g : Nat → Nat) (now : Int)
    (wfail : String → Option String) (fs : FileSys) (filepath : String)
    (data : PyVal) (fn ln dn : List String) (min_age max_age : Int) :
    (write_json_result J wfail fs filepath data).isStr = true ∧
    (read_json_result J fs filepath).isStr = true ∧
    (save_users_result J g now wfail fs filepath fn ln dn min_age max_age).isStr = true ∧
    (generate_sample_user_result g now fn ln dn min_age max_age).isDict = true ∧
    (generate_sample_user_result g now fn ln dn min_age max_age).isStr = false := by
  refine ⟨rfl, rfl, rfl, ?_, ?_⟩ <;>
    · unfold generate_sample_user_result
      cases generate_sample_user g now fn ln dn min_age max_age <;>
        simp [genResultToPy, PyVal.isDict, PyVal.isStr]

/-- C7 — for every writable path and every JSON-serializable mapping on
which the (external) `json` library round-trips, writing with
`write_json` and then reading with `read_json` yields exactly the
pretty-printed serialization of `data`, and that string parses back to a
value equal to `data` (equality of `PyVal.dict` values is equality of the
ordered key/value list, so key order and content are both preserved). -/
theorem claim_C7_roundtrip (J : JsonCodec) (wfail : String → Option String)
    (fs : FileSys) (filepath : String) (data : PyVal)
    (hW : wfail filepath = Option.none)
    (hRT : J.loads (J.dumps data) = Except.ok data) :
    read_json J (write_json J wfail fs filepath data).1 filepath = J.dumps data ∧
    J.loads (read_json J (write_json J wfail fs filepath data).1 filepath)
      = Except.ok data := by
  have hfs : (write_json J wfail fs filepath data).1 filepath
      = FileRead.content (J.dumps data) := by
    unfold write_json
    rw [hW]
    simp
  have hread : read_json J (write_json J wfail fs filepath data).1 filepath
      = J.dumps data := by
    unfold read_json
    rw [hfs]
    simp [hRT]
  exact ⟨hread, by rw [hread, hRT]⟩

/-- C7 witness: the round trip at a concrete two-key mapping through the
demo codec. -/
theorem claim_C7_witness :
    read_json demoJson (write_json demoJson noFail emptyFS "out.json" demoVal).1 "out.json"
      = demoJson.dumps demoVal ∧
    demoJson.loads
        (read_json demoJson (write_json demoJson noFail emptyFS "out.json" demoVal).1 "out.json")
      = Except.ok demoVal :=
  claim_C7_roundtrip demoJson noFail emptyFS "out.json" demoVal rfl
    (by simp [demoJson])

/-- The generic-read-failure string never coincides with a not-found
string, whatever the embedded message and path. -/
theorem err_read_ne_notfound (e p : String) :
    "Error reading JSON: " ++ e ≠ "Error: File '" ++ p ++ "' not found." := by
  apply str_ne_of_data_getElem _ _ 5
  simp only [String.data_append, List.append_assoc]
  rw [strPrefix_getElem _ _ 5 (by decide), strPrefix_getElem _ _ 5 (by decide)]
  decide

/-- The generic-read-failure string never coincides with an invalid-JSON
string, whatever the embedded messages. -/
theorem err_read_ne_invalid (e m : String) :
    "Error reading JSON: " ++ e ≠ "Error: Invalid JSON in file - " ++ m := by
  apply str_ne_of_data_getElem _ _ 5
  simp only [String.data_append, List.append_assoc]
  rw [strPrefix_getElem _ _ 5 (by decide), strPrefix_getElem _ _ 5 (by decide)]
  decide

/-- C8 — `read_json` distinguishes its failure modes: a missing file
yields the error string containing "not found" built from the path; an
existing file whose content fails to parse yields the error string
containing "Invalid JSON"; any other I/O failure yields the third error
form, which differs from both of the former as a string, whatever the
embedded messages. (In the embedding `read_json` is a total function, so
no failure escapes it.) -/
theorem claim_C8_read_errors (J : JsonCodec) (fs : FileSys) (filepath : String) :
    (fs filepath = FileRead.notFound →
      read_json J fs filepath = "Error: File '" ++ filepath ++ "' not found." ∧
      ∃ a b, read_json J fs filepath = a ++ "not found" ++ b) ∧
    (∀ text e, fs filepath = FileRead.content text → J.loads text = Except.error e →
      read_json J fs filepath = "Error: Invalid JSON in file - " ++ e ∧
      ∃ a b, read_json J fs filepath = a ++ "Invalid JSON" ++ b) ∧
    (∀ e, fs filepath = FileRead.ioError e →
      read_json J fs filepath = "Error reading JSON: " ++ e ∧
      (∀ p, read_json J fs filepath ≠ "Error: File '" ++ p ++ "' not found.") ∧
      (∀ m, read_json J fs filepath ≠ "Error: Invalid JSON in file - " ++ m)) := by
  refine ⟨?_, ?_, ?_⟩
  · intro h
    have hr : read_json J fs filepath = "Error: File '" ++ filepath ++ "' not found." := by
      unfold read_json
      rw [h]
    refine ⟨hr, "Error: File '" ++ filepath ++ "' ", ".", ?_⟩
    rw [hr]
    simp only [String.append_assoc]
    rfl
  · intro text e h1 h2
    have hr : read_json J fs filepath = "Error: Invalid JSON in file - " ++ e := by
      unfold read_json
      rw [h1]
      simp [h2]
    exact ⟨hr, "Error: ", " in file - " ++ e, by rw [hr]; rfl⟩
  · intro e h
    have hr : read_json J fs filepath = "Error reading JSON: " ++ e := by
      unfold read_json
      rw [h]
    refine ⟨hr, fun p => ?_, fun m => ?_⟩
    · rw [hr]; exact err_read_ne_notfound e p
    · rw [hr]; exact err_read_ne_invalid e m

/-- C8 witness: reading a path missing from the filesystem returns the
not-found error string at a concrete path. -/
theorem claim_C8_witness :
    read_json demoJson emptyFS "cfg.json" = "Error: File 'cfg.json' not found." := by
  have h := ((claim_C8_read_errors demoJson emptyFS "cfg.json").1 rfl).1
  rw [h]
  rfl

/-- Every outcome of tool dispatch is one Tool message carrying the
triggering call's correlation id. -/
theorem execToolCall_shape (registry : String → Option ToolFn) (tc : ToolCall) :
    ∃ content, execToolCall registry tc = Message.tool content tc.id := by
  cases h : registry tc.name with
  | none =>
      exact ⟨"Error: unknown tool '" ++ tc.name ++ "'", by unfold execToolCall; simp [h]⟩
  | some t =>
      cases h2 : t tc.args with
      | ok v => exact ⟨pyStr v, by unfold execToolCall; simp [h, h2]⟩
      | error e =>
          exact ⟨"Error running tool '" ++ tc.name ++ "': " ++ e,
            by unfold execToolCall; simp [h, h2, pyStr]⟩

/-- C10 — every Tool message the loop appends carries as content the
`str(...)` coercion of the dispatched tool's result: on success the
content is exactly `pyStr` of the returned value (even when that value is
a non-string such as the dict `generate_sample_user` returns), and in
every case the appended message's content is the `pyStr` image of some
Python value, so the conversation state only ever receives string content
from the tool-execution path. -/
theorem claim_C10_str_coercion (registry : String → Option ToolFn) (tc : ToolCall) :
    (∀ t v, registry tc.name = Option.some t → t tc.args = Except.ok v →
      execToolCall registry tc = Message.tool (pyStr v) tc.id) ∧
    (∃ w : PyVal, execToolCall registry tc = Message.tool (pyStr w) tc.id) := by
  constructor
  · intro t v h1 h2
    unfold execToolCall
    rw [h1]
    simp [h2]
  · cases h : registry tc.name with
    | none =>
        exact ⟨PyVal.str ("Error: unknown tool '" ++ tc.name ++ "'"),
          by unfold execToolCall; simp [h, pyStr]⟩
    | some t =>
        cases h2 : t tc.args with
        | ok v => exact ⟨v, by unfold execToolCall; simp [h, h2]⟩
        | error e =>
            exact ⟨PyVal.str ("Error running tool '" ++ tc.name ++ "': " ++ e),
              by unfold execToolCall; simp [h, h2]⟩

/-- C10 witness: a tool that returns the structured generation dict still
produces a Tool message whose content is the string coercion of that
dict. -/
theorem claim_C10_witness :
    execToolCall dictRegistry tcW
      = Message.tool (pyStr (genResultToPy demoGen)) "call_0" :=
  (claim_C10_str_coercion dictRegistry tcW).1 _ _ rfl rfl

/-- C3 — tool failures never escape the loop: dispatch always produces a
Tool message (never raises); an unregistered name produces the
unknown-tool error string, which contains the tool name, and the
remaining calls of the round are still processed (the `i`-th appended
message depends only on the `i`-th call); a registered tool whose
execution raises has the exception caught and converted into an error
string containing the tool name and the failure detail. -/
theorem claim_C3_tool_failures (registry : String → Option ToolFn) (tc : ToolCall) :
    (∃ content, execToolCall registry tc = Message.tool content tc.id) ∧
    (registry tc.name = Option.none →
      execToolCall registry tc
        = Message.tool ("Error: unknown tool '" ++ tc.name ++ "'") tc.id ∧
      ∃ a b, "Error: unknown tool '" ++ tc.name ++ "'" = a ++ tc.name ++ b) ∧
    (∀ t e, registry tc.name = Option.some t → t tc.args = Except.error e →
      execToolCall registry tc
        = Message.tool ("Error running tool '" ++ tc.name ++ "': " ++ e) tc.id ∧
      ∃ a b, "Error running tool '" ++ tc.name ++ "': " ++ e = a ++ tc.name ++ b ++ e) ∧
    (∀ tcs : List ToolCall, ∀ i (h : i < tcs.length),
      (tcs.map (execToolCall registry))[i]? = some (execToolCall registry (tcs.get ⟨i, h⟩))) := by
  refine ⟨execToolCall_shape registry tc, ?_, ?_, ?_⟩
  · intro h
    constructor
    · unfold execToolCall
      rw [h]
    · exact ⟨"Error: unknown tool '", "'", rfl⟩
  · intro t e h1 h2
    constructor
    · unfold execToolCall
      rw [h1]
      simp [h2, pyStr]
    · exact ⟨"Error running tool '", "': ", rfl⟩
  · intro tcs i h
    rw [List.getElem?_map, List.getElem?_eq_getElem h]
    rfl

/-- C3 witness: dispatching a call to an empty registry yields the
unknown-tool error message for that name, without failing. -/
theorem claim_C3_witness :
    execToolCall emptyRegistry tcW
      = Message.tool ("Error: unknown tool '" ++ "generate_sample_user" ++ "'") "call_0" :=
  ((claim_C3_tool_failures emptyRegistry tcW).2.1 rfl).1

/-- C2 — in a round whose AI reply carries tool calls, the loop appends
the AI message followed by exactly one Tool message per tool call before
the next model invocation (the recursive call receives exactly that
extended state); the appended list has one entry per call, in the order
of the calls, and each entry is a Tool message carrying the triggering
call's correlation id. -/
theorem claim_C2_round_tool_messages (J : JsonCodec) (model : ChatModel)
    (registry : String → Option ToolFn) (fuel : Nat) (msgs : List Message)
    (c : PyVal) (tcs : List ToolCall)
    (hM : model msgs = (c, tcs)) (hne : tcs ≠ []) :
    runChatAux J model registry (fuel + 1) msgs
      = runChatAux J model registry fuel
          ((msgs ++ [Message.ai c tcs]) ++ tcs.map (execToolCall registry)) ∧
    (tcs.map (execToolCall registry)).length = tcs.length ∧
    ∀ i (h : i < tcs.length),
      (tcs.map (execToolCall registry))[i]? = some (execToolCall registry (tcs.get ⟨i, h⟩)) ∧
      (execToolCall registry (tcs.get ⟨i, h⟩)).isToolMsg = true ∧
      (execToolCall registry (tcs.get ⟨i, h⟩)).toolCallId = some (tcs.get ⟨i, h⟩).id := by
  refine ⟨?_, by simp, ?_⟩
  · rw [runChatAux]
    rw [hM]
    simp [hne]
  · intro i h
    obtain ⟨content, hc⟩ := execToolCall_shape registry (tcs.get ⟨i, h⟩)
    refine ⟨?_, ?_, ?_⟩
    · rw [List.getElem?_map, List.getElem?_eq_getElem h]
      rfl
    · rw [hc]
      rfl
    · rw [hc]
      rfl

/-- C2 witness: a round with one tool call appends exactly one Tool
message. -/
theorem claim_C2_witness :
    (([⟨ "write_json", PyVal.none, "call_1" ⟩] : List ToolCall).map
      (execToolCall emptyRegistry)).length = 1 :=
  (claim_C2_round_tool_messages demoJson alwaysToolModel emptyRegistry 0 []
    (PyVal.str "") [⟨ "write_json", PyVal.none, "call_1" ⟩] rfl (by simp)).2.1

/-- The instrumented loop performs at most as many model invocations as
it has remaining rounds. -/
theorem runChatInvocations_le (model : ChatModel) (registry : String → Option ToolFn) :
    ∀ fuel msgs, runChatInvocations model registry fuel msgs ≤ fuel := by
  intro fuel
  induction fuel with
  | zero => intro msgs; simp [runChatInvocations]
  | succ n ih =>
      intro msgs
      rw [runChatInvocations]
      split
      · omega
      · have hih := ih ((msgs ++ [Message.ai (model msgs).1 (model msgs).2])
          ++ (model msgs).2.map (execToolCall registry))
        omega

/-- A model stub that always requests tools drives the loop body to the
exhaustion message from any state and any fuel. -/
theorem runChatAux_exhaust (J : JsonCodec) (model : ChatModel)
    (registry : String → Option ToolFn) (H : ∀ m, (model m).2 ≠ []) :
    ∀ fuel msgs, runChatAux J model registry fuel msgs
      = "Error: exceeded tool-calling loop limit." := by
  intro fuel
  induction fuel with
  | zero => intro msgs; rfl
  | succ n ih =>
      intro msgs
      rw [runChatAux]
      have h := H msgs
      simp only [List.isEmpty_eq_true, h, if_false]
      exact ih _

/-- C1 — `run_chat` performs at most 8 model-invocation rounds from its
initial state; with a model stub that always returns at least one tool
call and never a plain-text reply it returns the fixed exhaustion string
after the rounds are spent instead of looping further; and that
exhaustion string differs from every tool-error string the program can
build (unknown tool, caught tool exception, and each tool's own error
strings), whatever messages they embed. -/
theorem claim_C1_loop_cap (J : JsonCodec) (model : ChatModel)
    (registry : String → Option ToolFn) (input_text : String)
    (history_msgs : List Message) :
    runChatInvocations model registry 8
      (Message.system SYSTEM_MESSAGE :: (history_msgs ++ [Message.human input_text])) ≤ 8 ∧
    ((∀ msgs, (model msgs).2 ≠ []) →
      run_chat J model registry input_text history_msgs
        = "Error: exceeded tool-calling loop limit.") ∧
    (∀ name, "Error: exceeded tool-calling loop limit."
      ≠ "Error: unknown tool '" ++ name ++ "'") ∧
    (∀ name e, "Error: exceeded tool-calling loop limit."
      ≠ "Error running tool '" ++ name ++ "': " ++ e) ∧
    (∀ e, "Error: exceeded tool-calling loop limit." ≠ "Error writing JSON: " ++ e) ∧
    (∀ p, "Error: exceeded tool-calling loop limit."
      ≠ "Error: File '" ++ p ++ "' not found.") ∧
    (∀ m, "Error: exceeded tool-calling loop limit."
      ≠ "Error: Invalid JSON in file - " ++ m) ∧
    (∀ e, "Error: exceeded tool-calling loop limit." ≠ "Error reading JSON: " ++ e) ∧
    (∀ e, "Error: exceeded tool-calling loop limit." ≠ "Error generating users: " ++ e) ∧
    (∀ e, "Error: exceeded tool-calling loop limit." ≠ "Error saving users: " ++ e) := by
  refine ⟨runChatInvocations_le model registry 8 _, ?_, ?_, ?_, ?_, ?_, ?_, ?_, ?_, ?_⟩
  · intro H
    unfold run_chat
    exact runChatAux_exhaust J model registry H 8 _
  · intro name
    apply str_ne_of_data_getElem _ _ 7
    simp only [String.data_append, List.append_assoc]
    rw [strPrefix_getElem _ _ 7 (by decide)]
    decide
  · intro name e
    apply str_ne_of_data_getElem _ _ 5
    simp only [String.data_append, List.append_assoc]
    rw [strPrefix_getElem _ _ 5 (by decide)]
    decide
  · intro e
    apply str_ne_of_data_getElem _ _ 5
    simp only [String.data_append, List.append_assoc]
    rw [strPrefix_getElem _ _ 5 (by decide)]
    decide
  · intro p
    apply str_ne_of_data_getElem _ _ 7
    simp only [String.data_append, List.append_assoc]
    rw [strPrefix_getElem _ _ 7 (by decide)]
    decide
  · intro m
    apply str_ne_of_data_getElem _ _ 7
    simp only [String.data_append, List.append_assoc]
    rw [strPrefix_getElem _ _ 7 (by decide)]
    decide
  · intro e
    apply str_ne_of_data_getElem _ _ 5
    simp only [String.data_append, List.append_assoc]
    rw [strPrefix_getElem _ _ 5 (by decide)]
    decide
  · intro e
    apply str_ne_of_data_getElem _ _ 5
    simp only [String.data_append, List.append_assoc]
    rw [strPrefix_getElem _ _ 5 (by decide)]
    decide
  · intro e
    apply str_ne_of_data_getElem _ _ 5
    simp only [String.data_append, List.append_assoc]
    rw [strPrefix_getElem _ _ 5 (by decide)]
    decide

/-- C1 witness: with the always-tool-calling model stub, `run_chat`
returns the exhaustion message at a concrete input. -/
theorem claim_C1_witness :
    run_chat demoJson alwaysToolModel emptyRegistry "hi" []
      = "Error: exceeded tool-calling loop limit." :=
  (claim_C1_loop_cap demoJson alwaysToolModel emptyRegistry "hi" []).2.1
    (fun msgs => by simp [alwaysToolModel])

/-- Whitespace characters are not slug characters, even after
lowercasing. -/
theorem ws_lower_nonslug (c : Char) (h : c.isWhitespace = true) :
    isSlugChar (asciiLower c) = false := by
  simp [Char.isWhitespace] at h
  rcases h with ((h | h) | h) | h <;> subst h <;> decide

/-- A slug character is never the separator dot. -/
theorem slug_ne_dot (c : Char) (h : isSlugChar c = true) : (c == '.') = false := by
  rcases Bool.eq_false_or_eq_true (c == '.') with hb | hb
  · have hc : c = '.' := eq_of_beq hb
    subst hc
    exact absurd h (by decide)
  · exact hb

/-- `dropWhile` is the identity when the head fails the predicate. -/
theorem dropWhile_head_false (p : Char → Bool) (l : List Char) (c : Char)
    (h : l.head? = some c) (hc : p c = false) : l.dropWhile p = l := by
  cases l with
  | nil => rfl
  | cons a as =>
      have ha : a = c := by simpa using h
      subst ha
      rw [List.dropWhile_cons, if_neg (by simp [hc])]

/-- `slugWords` is empty when the leading non-alphanumeric scan consumes
the whole list. -/
theorem slugWords_eq_nil_of_drop (l : List Char)
    (h : l.dropWhile (fun c => !(isSlugChar c)) = []) : slugWords l = [] := by
  rw [slugWords]
  split
  · rfl
  · rename_i c cs heq
    rw [h] at heq
    cases heq

/-- Unfolding of `slugWords` when the leading scan leaves a nonempty
remainder. -/
theorem slugWords_cons_eq (l : List Char) (c : Char) (cs : List Char)
    (h : l.dropWhile (fun d => !(isSlugChar d)) = c :: cs) :
    slugWords l = ((c :: cs).takeWhile isSlugChar)
      :: slugWords ((c :: cs).dropWhile isSlugChar) := by
  rw [slugWords]
  split
  · rename_i heq
    rw [h] at heq
    cases heq
  · rename_i c' cs' heq
    rw [h] at heq
    cases heq
    rfl

/-- Lists of non-alphanumeric characters have no slug words. -/
theorem slugWords_nonslug_nil (l : List Char) (h : ∀ c ∈ l, isSlugChar c = false) :
    slugWords l = [] := by
  apply slugWords_eq_nil_of_drop
  rw [List.dropWhile_eq_nil_iff]
  intro x hx
  simp [h x hx]

/-- If `slugWords` is empty then every character is non-alphanumeric. -/
theorem slugWords_nil_nonslug (l : List Char) (h : slugWords l = []) :
    ∀ c ∈ l, isSlugChar c = false := by
  intro c hc
  by_contra hcc
  have hp : isSlugChar c = true := by simpa using hcc
  cases hd : l.dropWhile (fun d => !(isSlugChar d)) with
  | nil =>
      have hall := List.dropWhile_eq_nil_iff.mp hd
      have := hall c hc
      simp [hp] at this
  | cons a as =>
      rw [slugWords_cons_eq l a as hd] at h
      cases h

/-- Every slug word is a nonempty list of slug characters. -/
theorem slugWords_words (l : List Char) :
    ∀ w ∈ slugWords l, w ≠ [] ∧ ∀ c ∈ w, isSlugChar c = true := by
  induction l using slugWords.induct with
  | case1 x l h =>
      rw [slugWords_eq_nil_of_drop l h]
      intro w hw
      simp at hw
  | case2 x l c cs h ih =>
      rw [slugWords_cons_eq l c cs h]
      intro w hw
      rcases List.mem_cons.mp hw with hw | hw
      · subst hw
        have hc : isSlugChar c = true := by
          have hh := List.head?_dropWhile_not (fun d => !(isSlugChar d)) l
          rw [h] at hh
          simpa using hh
        constructor
        · rw [List.takeWhile_cons, if_pos hc]
          simp
        · intro x hx
          exact List.mem_takeWhile_imp hx
      · exact ih w hw

/-- Joining a word list whose first word gains a head character. -/
theorem joinDots_cons_head (c : Char) (w : List Char) (ws : List (List Char)) :
    joinDots ((c :: w) :: ws) = c :: joinDots (w :: ws) := by
  cases ws <;> rfl

/-- A join of nonempty words is nonempty. -/
theorem joinDots_ne_nil (ws : List (List Char)) (h0 : ws ≠ [])
    (h : ∀ w ∈ ws, w ≠ []) : joinDots ws ≠ [] := by
  match ws with
  | [] => exact absurd rfl h0
  | [w] =>
      have := h w (by simp)
      simpa [joinDots] using this
  | w :: x :: ws =>
      have hw := h w (by simp)
      rw [joinDots]
      simp [hw]

/-- The head of a join is the head of the first word. -/
theorem joinDots_head? (w : List Char) (ws : List (List Char)) (h : w ≠ []) :
    (joinDots (w :: ws)).head? = w.head? := by
  cases ws with
  | nil => rfl
  | cons x xs =>
      rw [joinDots]
      exact List.head?_append_of_ne_nil w h

/-- The last element of a join is the last element of one of the words. -/
theorem joinDots_getLast_mem (ws : List (List Char)) (h0 : ws ≠ [])
    (h : ∀ w ∈ ws, w ≠ []) :
    ∃ u ∈ ws, (joinDots ws).getLast? = u.getLast? := by
  match ws with
  | [] => exact absurd rfl h0
  | [w] => exact ⟨w, by simp, rfl⟩
  | w :: x :: ws =>
      obtain ⟨u, hu, he⟩ := joinDots_getLast_mem (x :: ws) (by simp)
        (fun v hv => h v (List.mem_cons_of_mem w hv))
      refine ⟨u, List.mem_cons_of_mem w hu, ?_⟩
      rw [joinDots]
      have hne : joinDots (x :: ws) ≠ [] :=
        joinDots_ne_nil (x :: ws) (by simp) (fun v hv => h v (List.mem_cons_of_mem w hv))
      rw [List.getLast?_append_of_ne_nil w (by simp),
        show ('.' :: joinDots (x :: ws)) = ['.'] ++ joinDots (x :: ws) from rfl,
        List.getLast?_append_of_ne_nil ['.'] hne]
      exact he

/-- `takeWhile`/`dropWhile` on an appended list when the scan stops inside
the left part. -/
theorem scan_append_stop (p : Char → Bool) (x a : List Char)
    (h : x.dropWhile p ≠ []) :
    (x ++ a).takeWhile p = x.takeWhile p ∧ (x ++ a).dropWhile p = x.dropWhile p ++ a := by
  induction x with
  | nil => exact absurd rfl h
  | cons e es ih =>
      rcases Bool.eq_false_or_eq_true (p e) with hp | hp
      · have hes : es.dropWhile p ≠ [] := by
          rw [List.dropWhile_cons, if_pos hp] at h
          exact h
        obtain ⟨h1, h2⟩ := ih hes
        constructor
        · rw [List.cons_append, List.takeWhile_cons, if_pos hp,
            List.takeWhile_cons, if_pos hp, h1]
        · rw [List.cons_append, List.dropWhile_cons, if_pos hp,
            List.dropWhile_cons, if_pos hp, h2]
      · constructor
        · rw [List.cons_append, List.takeWhile_cons, if_neg (by simp [hp]),
            List.takeWhile_cons, if_neg (by simp [hp])]
        · rw [List.cons_append, List.dropWhile_cons, if_neg (by simp [hp]),
            List.dropWhile_cons, if_neg (by simp [hp])]
          rfl

/-- `dropWhile` over an appended list whose left part is consumed
entirely. -/
theorem dropWhile_append_all (p : Char → Bool) (x a : List Char)
    (h : ∀ c ∈ x, p c = true) : (x ++ a).dropWhile p = a.dropWhile p := by
  induction x with
  | nil => rfl
  | cons e es ih =>
      rw [List.cons_append, List.dropWhile_cons, if_pos (h e (by simp))]
      exact ih (fun c hc => h c (List.mem_cons_of_mem e hc))

/-- `takeWhile` over an appended list whose left part is consumed
entirely. -/
theorem takeWhile_append_all (p : Char → Bool) (x a : List Char)
    (h : ∀ c ∈ x, p c = true) : (x ++ a).takeWhile p = x ++ a.takeWhile p := by
  induction x with
  | nil => rfl
  | cons e es ih =>
      rw [List.cons_append, List.takeWhile_cons, if_pos (h e (by simp)),
        ih (fun c hc => h c (List.mem_cons_of_mem e hc))]
      rfl

/-- Prepending non-alphanumeric characters does not change the slug
words. -/
theorem slugWords_nonslug_append (a l : List Char)
    (ha : ∀ c ∈ a, isSlugChar c = false) : slugWords (a ++ l) = slugWords l := by
  have hq : (a ++ l).dropWhile (fun d => !(isSlugChar d))
      = l.dropWhile (fun d => !(isSlugChar d)) :=
    dropWhile_append_all _ a l (fun c hc => by simp [ha c hc])
  cases hd : l.dropWhile (fun d => !(isSlugChar d)) with
  | nil =>
      rw [slugWords_eq_nil_of_drop l hd, slugWords_eq_nil_of_drop (a ++ l) (by rw [hq, hd])]
  | cons c cs =>
      rw [slugWords_cons_eq l c cs hd, slugWords_cons_eq (a ++ l) c cs (by rw [hq, hd])]

/-- Appending non-alphanumeric characters does not change the slug
words. -/
theorem slugWords_append_nonslug (a : List Char)
    (ha : ∀ c ∈ a, isSlugChar c = false) :
    ∀ l, slugWords (l ++ a) = slugWords l := by
  intro l
  induction l using slugWords.induct with
  | case1 x l h =>
      have hl : ∀ c ∈ l, isSlugChar c = false := by
        intro c hc
        have := List.dropWhile_eq_nil_iff.mp h c hc
        simpa using this
      rw [slugWords_eq_nil_of_drop l h, slugWords_nonslug_nil (l ++ a) ?_]
      intro c hc
      rcases List.mem_append.mp hc with hc | hc
      · exact hl c hc
      · exact ha c hc
  | case2 x l c cs h ih =>
      have hq : (l ++ a).dropWhile (fun d => !(isSlugChar d)) = c :: (cs ++ a) := by
        have hstop := (scan_append_stop (fun d => !(isSlugChar d)) l a (by rw [h]; simp)).2
        rw [h] at hstop
        exact hstop
      rw [slugWords_cons_eq (l ++ a) c (cs ++ a) hq]
      rw [slugWords_cons_eq l c cs h]
      by_cases hall : ∀ d ∈ c :: cs, isSlugChar d = true
      · have hta : a.takeWhile isSlugChar = [] := by
          cases a with
          | nil => rfl
          | cons e es =>
              rw [List.takeWhile_cons, if_neg (by simp [ha e (by simp)])]
        have hda : a.dropWhile isSlugChar = a := by
          cases a with
          | nil => rfl
          | cons e es =>
              rw [List.dropWhile_cons, if_neg (by simp [ha e (by simp)])]
        have ht1 : ((c :: cs) ++ a).takeWhile isSlugChar = c :: cs := by
          rw [takeWhile_append_all isSlugChar (c :: cs) a hall, hta, List.append_nil]
        have ht2 : (c :: cs).takeWhile isSlugChar = c :: cs := by
          have := takeWhile_append_all isSlugChar (c :: cs) [] hall
          simpa using this
        have hd1 : ((c :: cs) ++ a).dropWhile isSlugChar = a := by
          rw [dropWhile_append_all isSlugChar (c :: cs) a hall, hda]
        have hd2 : (c :: cs).dropWhile isSlugChar = [] :=
          List.dropWhile_eq_nil_iff.mpr hall
        have hsa : slugWords a = [] := slugWords_nonslug_nil a ha
        have hsnil : slugWords ([] : List Char) = [] := slugWords_eq_nil_of_drop [] rfl
        rw [show (c :: (cs ++ a)).takeWhile isSlugChar
            = ((c :: cs) ++ a).takeWhile isSlugChar from rfl, ht1, ht2]
        rw [show (c :: (cs ++ a)).dropWhile isSlugChar
            = ((c :: cs) ++ a).dropWhile isSlugChar from rfl, hd1, hd2, hsa, hsnil]
      · have hd1 : (c :: cs).dropWhile isSlugChar ≠ [] := by
          intro hnil
          exact hall (fun d hd => List.dropWhile_eq_nil_iff.mp hnil d hd)
        obtain ⟨h1, h2⟩ := scan_append_stop isSlugChar (c :: cs) a hd1
        rw [show (c :: (cs ++ a)).takeWhile isSlugChar
            = ((c :: cs) ++ a).takeWhile isSlugChar from rfl, h1]
        rw [show (c :: (cs ++ a)).dropWhile isSlugChar
            = ((c :: cs) ++ a).dropWhile isSlugChar from rfl, h2, ih]

/-- The last element of a list seen through a nonempty suffix. -/
theorem getLast?_of_suffix (m l : List Char) (h : m <:+ l) (hm : m ≠ []) :
    l.getLast? = m.getLast? := by
  obtain ⟨s, rfl⟩ := h
  exact List.getLast?_append_of_ne_nil s hm

/-- The last element of a cons with nonempty tail. -/
theorem getLast?_cons_ne_nil (c : Char) (cs : List Char) (h : cs ≠ []) :
    (c :: cs).getLast? = cs.getLast? :=
  List.getLast?_append_of_ne_nil [c] h

/-- `dotLead` is empty or a single dot. -/
theorem dotLead_shape (l : List Char) : dotLead l = [] ∨ dotLead l = ['.'] := by
  unfold dotLead
  cases l.head? with
  | none => exact Or.inl rfl
  | some c =>
      by_cases hc : isSlugChar c = true
      · exact Or.inl (by simp [hc])
      · exact Or.inr (by simp [hc])

/-- `dotTrail` is empty or a single dot. -/
theorem dotTrail_shape (l : List Char) : dotTrail l = [] ∨ dotTrail l = ['.'] := by
  unfold dotTrail
  cases l.getLast? with
  | none => exact Or.inl rfl
  | some c =>
      by_cases hc : isSlugChar c = true
      · exact Or.inl (by simp [hc])
      · exact Or.inr (by simp [hc])

/-- `dotTrail` only depends on the last element. -/
theorem dotTrail_congr (l m : List Char) (h : l.getLast? = m.getLast?) :
    dotTrail l = dotTrail m := by
  unfold dotTrail
  rw [h]

/-- On all-non-alphanumeric input, `collapseRuns` yields exactly the
leading separator. -/
theorem collapseRuns_nonslug (l : List Char)
    (h : ∀ c ∈ l, isSlugChar c = false) : collapseRuns l = dotLead l := by
  cases l with
  | nil => rw [collapseRuns]; rfl
  | cons c cs =>
      have hc : isSlugChar c = false := h c (by simp)
      have hdr : cs.dropWhile (fun d => !(isSlugChar d)) = [] :=
        List.dropWhile_eq_nil_iff.mpr
          (fun d hd => by simp [h d (List.mem_cons_of_mem c hd)])
      rw [collapseRuns, if_neg (by simp [hc]), hdr]
      rw [show dotLead (c :: cs) = ['.'] from by simp [dotLead, hc]]
      simp [collapseRuns]

/-- Characterization of `collapseRuns` when the input has at least one
alphanumeric character: it is the dot-joined word list, with one leading
separator when the input starts non-alphanumeric and one trailing
separator when it ends non-alphanumeric. -/
theorem collapseRuns_eq_words :
    ∀ l, slugWords l ≠ [] →
      collapseRuns l = dotLead l ++ joinDots (slugWords l) ++ dotTrail l := by
  intro l
  induction l using collapseRuns.induct with
  | case1 =>
      intro hsw
      exact absurd (slugWords_eq_nil_of_drop [] rfl) hsw
  | case2 c cs hc ih =>
      intro hsw
      have hdrop : (c :: cs).dropWhile (fun d => !(isSlugChar d)) = c :: cs := by
        rw [List.dropWhile_cons, if_neg (by simp [hc])]
      have hsl := slugWords_cons_eq (c :: cs) c cs hdrop
      have htw : (c :: cs).takeWhile isSlugChar = c :: cs.takeWhile isSlugChar := by
        rw [List.takeWhile_cons, if_pos hc]
      have hdw : (c :: cs).dropWhile isSlugChar = cs.dropWhile isSlugChar := by
        rw [List.dropWhile_cons, if_pos hc]
      have hlead : dotLead (c :: cs) = [] := by simp [dotLead, hc]
      rw [collapseRuns, if_pos hc]
      cases hcs : cs with
      | nil =>
          subst hcs
          have hdw1 : List.dropWhile isSlugChar [c] = [] := by
            rw [List.dropWhile_cons, if_pos hc]
            rfl
          have hw : slugWords [c] = [[c]] := by
            rw [hsl, htw, hdw1, slugWords_eq_nil_of_drop [] rfl]
            rfl
          have htr : dotTrail [c] = [] := by simp [dotTrail, hc]
          rw [hw, hlead, htr]
          simp [collapseRuns, joinDots]
      | cons d ds =>
          subst hcs
          by_cases hd : isSlugChar d = true
          · have hdropcs : (d :: ds).dropWhile (fun x => !(isSlugChar x)) = d :: ds := by
              rw [List.dropWhile_cons, if_neg (by simp [hd])]
            have hslcs := slugWords_cons_eq (d :: ds) d ds hdropcs
            have hswcs : slugWords (d :: ds) ≠ [] := by rw [hslcs]; simp
            have hihres := ih hswcs
            have hleadcs : dotLead (d :: ds) = [] := by simp [dotLead, hd]
            have htrailc : dotTrail (c :: d :: ds) = dotTrail (d :: ds) :=
              dotTrail_congr _ _ (getLast?_cons_ne_nil c (d :: ds) (by simp))
            have hjoin : joinDots (slugWords (c :: d :: ds))
                = c :: joinDots (slugWords (d :: ds)) := by
              rw [hsl, htw, hdw, hslcs]
              rw [show (d :: ds).takeWhile isSlugChar
                  = d :: ds.takeWhile isSlugChar from by rw [List.takeWhile_cons, if_pos hd]]
              rw [show (d :: ds).dropWhile isSlugChar
                  = ds.dropWhile isSlugChar from by rw [List.dropWhile_cons, if_pos hd]]
              exact joinDots_cons_head c _ _
            rw [hjoin, hlead, hihres, hleadcs, htrailc]
            simp
          · have hdf : isSlugChar d = false := by simpa using hd
            have hdwcs : (d :: ds).dropWhile isSlugChar = d :: ds := by
              rw [List.dropWhile_cons, if_neg (by simp [hdf])]
            have htwcs : (d :: ds).takeWhile isSlugChar = [] := by
              rw [List.takeWhile_cons, if_neg (by simp [hdf])]
            have hwords : slugWords (c :: d :: ds) = [c] :: slugWords (d :: ds) := by
              rw [hsl, htw, hdw, htwcs, hdwcs]
            by_cases hswcs : slugWords (d :: ds) = []
            · have hnon := slugWords_nil_nonslug _ hswcs
              have hcoll : collapseRuns (d :: ds) = ['.'] := by
                rw [collapseRuns_nonslug _ hnon]
                simp [dotLead, hdf]
              have htrailc : dotTrail (c :: d :: ds) = ['.'] := by
                unfold dotTrail
                rw [getLast?_cons_ne_nil c (d :: ds) (by simp)]
                cases hgl : (d :: ds).getLast? with
                | none =>
                    have := List.getLast?_eq_none_iff.mp hgl
                    simp at this
                | some e =>
                    have hem : e ∈ d :: ds :=
                      List.mem_of_mem_getLast? (by rw [hgl]; rfl)
                    simp [hnon e hem]
              rw [hwords, hswcs, hcoll, hlead, htrailc]
              rfl
            · have hihres := ih hswcs
              have hleadcs : dotLead (d :: ds) = ['.'] := by simp [dotLead, hdf]
              have htrailc : dotTrail (c :: d :: ds) = dotTrail (d :: ds) :=
                dotTrail_congr _ _ (getLast?_cons_ne_nil c (d :: ds) (by simp))
              have hjoin : joinDots ([c] :: slugWords (d :: ds))
                  = c :: '.' :: joinDots (slugWords (d :: ds)) := by
                cases hw : slugWords (d :: ds) with
                | nil => exact absurd hw hswcs
                | cons w ws =>
                    rw [joinDots]
                    rfl
              rw [hwords, hjoin, hlead, hihres, hleadcs, htrailc]
              simp
  | case3 c cs hc ih =>
      intro hsw
      have hcf : isSlugChar c = false := by simpa using hc
      have hdropl : (c :: cs).dropWhile (fun d => !(isSlugChar d))
          = cs.dropWhile (fun d => !(isSlugChar d)) := by
        rw [List.dropWhile_cons, if_pos (by simp [hcf])]
      cases hm : cs.dropWhile (fun d => !(isSlugChar d)) with
      | nil =>
          have h0 : slugWords (c :: cs) = [] :=
            slugWords_eq_nil_of_drop _ (by rw [hdropl, hm])
          exact absurd h0 hsw
      | cons e es =>
          have he : isSlugChar e = true := by
            have hh := List.head?_dropWhile_not (fun d => !(isSlugChar d)) cs
            rw [hm] at hh
            simpa using hh
          have hw1 := slugWords_cons_eq (c :: cs) e es (by rw [hdropl, hm])
          have hdropm : (e :: es).dropWhile (fun d => !(isSlugChar d)) = e :: es := by
            rw [List.dropWhile_cons, if_neg (by simp [he])]
          have hw2 := slugWords_cons_eq (e :: es) e es hdropm
          have hweq : slugWords (c :: cs) = slugWords (e :: es) := by rw [hw1, hw2]
          have hswm : slugWords (e :: es) ≠ [] := by rw [hw2]; simp
          rw [hm] at ih
          have hihres := ih hswm
          have hleadm : dotLead (e :: es) = [] := by simp [dotLead, he]
          have hleadl : dotLead (c :: cs) = ['.'] := by simp [dotLead, hcf]
          have hcs_ne : cs ≠ [] := by
            intro h0
            rw [h0] at hm
            simp at hm
          have htrailc : dotTrail (c :: cs) = dotTrail (e :: es) := by
            apply dotTrail_congr
            rw [getLast?_cons_ne_nil c cs hcs_ne]
            exact getLast?_of_suffix (e :: es) cs
              (hm ▸ List.dropWhile_suffix (fun d => !(isSlugChar d))) (by simp)
          rw [collapseRuns, if_neg (by simp [hcf]), hm, hihres, hweq, hleadm, hleadl,
            htrailc]
          simp

/-- Stripping dots from a join wrapped in at most one leading and one
trailing separator recovers exactly the join. -/
theorem stripDots_sandwich (dL core dT : List Char)
    (hL : dL = [] ∨ dL = ['.']) (hT : dT = [] ∨ dT = ['.'])
    (hhead : ∃ c, core.head? = some c ∧ isSlugChar c = true)
    (hlast : ∃ c, core.getLast? = some c ∧ isSlugChar c = true) :
    stripDots (dL ++ core ++ dT) = core := by
  obtain ⟨ch, hch, hchs⟩ := hhead
  obtain ⟨cl, hcl, hcls⟩ := hlast
  have hcore_ne : core ≠ [] := by
    intro h0
    rw [h0] at hch
    simp at hch
  have hcd : (core ++ dT).dropWhile (fun c => c == '.') = core ++ dT := by
    apply dropWhile_head_false _ _ ch ?_ (slug_ne_dot ch hchs)
    rw [List.head?_append_of_ne_nil core hcore_ne]
    exact hch
  have hstep1 : (dL ++ core ++ dT).dropWhile (fun c => c == '.') = core ++ dT := by
    rcases hL with h | h
    · rw [h]
      simpa using hcd
    · rw [h, show ((['.'] : List Char) ++ core ++ dT) = '.' :: (core ++ dT) from by
        simp]
      rw [List.dropWhile_cons, if_pos (by decide)]
      exact hcd
  have hcrev : core.reverse.dropWhile (fun c => c == '.') = core.reverse := by
    apply dropWhile_head_false _ _ cl ?_ (slug_ne_dot cl hcls)
    rw [List.head?_reverse]
    exact hcl
  have hstep2 : (core ++ dT).reverse.dropWhile (fun c => c == '.') = core.reverse := by
    rw [List.reverse_append]
    rcases hT with h | h
    · rw [h]
      simpa using hcrev
    · rw [h, show ((['.'] : List Char).reverse ++ core.reverse)
          = '.' :: core.reverse from rfl]
      rw [List.dropWhile_cons, if_pos (by decide)]
      exact hcrev
  unfold stripDots
  rw [hstep1, hstep2, List.reverse_reverse]

/-- The composition the source computes — collapse runs to dots, then
strip dots from both ends — equals the dot-join of the alphanumeric
words. -/
theorem stripDots_collapseRuns_eq (l : List Char) :
    stripDots (collapseRuns l) = joinDots (slugWords l) := by
  by_cases hsw : slugWords l = []
  · rw [hsw, collapseRuns_nonslug l (slugWords_nil_nonslug l hsw)]
    rcases dotLead_shape l with h | h <;> rw [h] <;> rfl
  · rw [collapseRuns_eq_words l hsw]
    have hwprop := slugWords_words l
    cases hws : slugWords l with
    | nil => exact absurd hws hsw
    | cons w ws =>
        have hwne : w ≠ [] := (hwprop w (by rw [hws]; simp)).1
        have hallw : ∀ u ∈ w :: ws, u ≠ [] := by
          intro u hu
          exact (hwprop u (by rw [hws]; exact hu)).1
        have hhead : ∃ c, (joinDots (w :: ws)).head? = some c ∧ isSlugChar c = true := by
          cases hw0 : w with
          | nil => exact absurd hw0 hwne
          | cons a as =>
              refine ⟨a, ?_, ?_⟩
              · rw [joinDots_head? (a :: as) ws (by simp)]
                rfl
              · exact (hwprop w (by rw [hws]; simp)).2 a (by rw [hw0]; simp)
        have hlast : ∃ c, (joinDots (w :: ws)).getLast? = some c ∧ isSlugChar c = true := by
          obtain ⟨u, hu, hue⟩ := joinDots_getLast_mem (w :: ws) (by simp) hallw
          cases hgl : u.getLast? with
          | none =>
              have := List.getLast?_eq_none_iff.mp hgl
              exact absurd this (hallw u hu)
          | some c =>
              refine ⟨c, ?_, ?_⟩
              · rw [hue, hgl]
              · have hcm : c ∈ u := List.mem_of_mem_getLast? (by rw [hgl]; rfl)
                exact (hwprop u (by rw [hws]; exact hu)).2 c hcm
        exact stripDots_sandwich (dotLead l) (joinDots (w :: ws)) (dotTrail l)
          (dotLead_shape l) (dotTrail_shape l) hhead hlast

/-- Stripping whitespace before lowercasing does not change the
alphanumeric words. -/
theorem slugWords_pyStrip_lower (x : List Char) :
    slugWords ((pyStrip x).map asciiLower) = slugWords (x.map asciiLower) := by
  set m := x.dropWhile Char.isWhitespace with hm
  have h1 : x = x.takeWhile Char.isWhitespace ++ m :=
    (List.takeWhile_append_dropWhile Char.isWhitespace x).symm
  have h2a : m.reverse
      = m.reverse.takeWhile Char.isWhitespace ++ m.reverse.dropWhile Char.isWhitespace :=
    (List.takeWhile_append_dropWhile Char.isWhitespace m.reverse).symm
  have h2 : m = pyStrip x ++ (m.reverse.takeWhile Char.isWhitespace).reverse := by
    calc m = m.reverse.reverse := (List.reverse_reverse m).symm
      _ = (m.reverse.takeWhile Char.isWhitespace
            ++ m.reverse.dropWhile Char.isWhitespace).reverse := by rw [← h2a]
      _ = (m.reverse.dropWhile Char.isWhitespace).reverse
            ++ (m.reverse.takeWhile Char.isWhitespace).reverse :=
        List.reverse_append _ _
      _ = pyStrip x ++ (m.reverse.takeWhile Char.isWhitespace).reverse := rfl
  have hws1 : ∀ c ∈ (x.takeWhile Char.isWhitespace).map asciiLower,
      isSlugChar c = false := by
    intro c hc
    obtain ⟨d, hd, rfl⟩ := List.mem_map.mp hc
    exact ws_lower_nonslug d (List.mem_takeWhile_imp hd)
  have hws2 : ∀ c ∈ ((m.reverse.takeWhile Char.isWhitespace).reverse).map asciiLower,
      isSlugChar c = false := by
    intro c hc
    obtain ⟨d, hd, rfl⟩ := List.mem_map.mp hc
    have hd2 : d ∈ m.reverse.takeWhile Char.isWhitespace := by
      simpa using hd
    exact ws_lower_nonslug d (List.mem_takeWhile_imp hd2)
  calc slugWords ((pyStrip x).map asciiLower)
      = slugWords ((pyStrip x).map asciiLower
          ++ ((m.reverse.takeWhile Char.isWhitespace).reverse).map asciiLower) :=
        (slugWords_append_nonslug _ hws2 _).symm
    _ = slugWords (m.map asciiLower) := by rw [← List.map_append, ← h2]
    _ = slugWords ((x.takeWhile Char.isWhitespace).map asciiLower
          ++ m.map asciiLower) := (slugWords_nonslug_append _ _ hws1).symm
    _ = slugWords (x.map asciiLower) := by rw [← List.map_append, ← h1]

/-- C9 — the slugification used for email/username parts behaves exactly
as specified: it equals the function that lowercases the string, keeps
the maximal alphanumeric runs as words, joins consecutive words with a
single separator character (hence collapses every maximal non-alphanumeric
run to one separator and has no leading or trailing separator), and
returns the fixed literal placeholder `"user"` when no alphanumeric
character remains. -/
theorem claim_C9_slugify (s : String) : _slugify s = slugifyClaim s := by
  simp only [_slugify, slugifyClaim]
  rw [stripDots_collapseRuns_eq, slugWords_pyStrip_lower s.data]
  by_cases hsw : slugWords (s.data.map asciiLower) = []
  · rw [hsw]
    rfl
  · have hwords := slugWords_words (s.data.map asciiLower)
    have hne : joinDots (slugWords (s.data.map asciiLower)) ≠ [] :=
      joinDots_ne_nil _ hsw (fun w hw => (hwords w hw).1)
    rw [if_neg (by simp [hne]), if_neg (by simp [hsw])]
